import Mathlib

/-!
Verification development for the MSSQL `APPLY` construct
(`lib/sqlalchemy/dialects/mssql/apply.py` and `lib/sqlalchemy/dialects/mssql/ext.py`).

The `Apply` node is embedded shallowly: relations form an inductive tree
(`FromClause`) whose constructors are base tables, `Apply` nodes (with their stored
`left`, `right` and `isouter` fields) and `FromGrouping` wrappers.  The
operations defined on `Apply` in `apply.py` are translated directly from the
source; behaviors of collaborator classes that are not part of the sources
(the keyed column collection, the coercion service, the `Select` builder, the
clone registry) are modelled from the specification and are marked as such in
their doc comments.
-/

/-- A column reference as consumed by `Apply._populate_column_collection`:
it carries its disambiguated label key (`_key_label`), an identity token to
tell distinct column objects apart, and its set of foreign-key references. -/
structure Column where
  key_label : String
  cid : Nat
  foreign_keys : Finset Nat
  deriving DecidableEq

/-- A base relation (e.g. a `Table`): an identity token plus its columns. -/
structure BaseRel where
  rid : Nat
  cols : List Column
  deriving DecidableEq

/-- A relation expression (from-clause).  `apply left right isouter` is an
`Apply` node with its stored fields, `grouping` is the `FromGrouping`
parenthesization wrapper, `table` a base relation. -/
inductive FromClause where
  | table (b : BaseRel)
  | apply (left right : FromClause) (isouter : Bool)
  | grouping (element : FromClause)
  deriving DecidableEq

/-- Helper for the keyed mapping below: the last value bound to key `k` in the
pair list, with default `d` (the value seen before the list). -/
def lastVal (k : String) (d : Column) : List (String × Column) → Column
  | [] => d
  | q :: rest => lastVal k (if q.1 == k then q.2 else d) rest

/-- Modelled from the spec: `ColumnCollection._populate_separate_keys` is not
part of the sources.  Per the spec, the column collection is a key-unique,
insertion-ordered mapping; each key keeps the position of its first
occurrence, and on key collision the standard last-wins-by-key insertion rule
applies (the later column silently takes the slot). -/
def populate_separate_keys : List (String × Column) → List (String × Column)
  | [] => []
  | p :: rest =>
      (p.1, lastVal p.1 p.2 rest)
        :: populate_separate_keys (rest.filter (fun q => !(q.1 == p.1)))
  termination_by l => l.length
  decreasing_by
    simp only [List.length_cons]
    exact Nat.lt_succ_of_le (List.length_filter_le _ _)

/-- Keys in order of first occurrence (the spec-side description of the key
order of a merged, key-unique, insertion-ordered mapping). -/
def firstDedup : List String → List String
  | [] => []
  | k :: rest => k :: firstDedup (rest.filter (fun x => !(x == k)))
  termination_by l => l.length
  decreasing_by
    simp only [List.length_cons]
    exact Nat.lt_succ_of_le (List.length_filter_le _ _)

/-- The populated column collection of a relation, in insertion order.
For `Apply` this is `_populate_column_collection`: the list
`[c for c in self.left.columns] + [c for c in self.right.columns]` is fed,
keyed by `_key_label`, into `_populate_separate_keys`; the resulting
collection iterates the mapping's values.  A base table's columns are its own
(collaborator behavior); a `FromGrouping` delegates to its element
(modelled from the spec: grouping is purely parenthesization). -/
def FromClause.columns : FromClause → List Column
  | .table b => b.cols
  | .grouping e => e.columns
  | .apply l r _ =>
      (populate_separate_keys
        ((l.columns ++ r.columns).map (fun c => (c.key_label, c)))).map Prod.snd

/-- The foreign-key set of a relation.  For `Apply` this is
`self.foreign_keys.update(itertools.chain(*[col.foreign_keys for col in
columns]))` over the concatenated (pre-merge) column list, starting from the
empty collection; a base table accumulates its own columns' foreign keys and
a `FromGrouping` delegates (modelled from the spec). -/
def FromClause.foreign_keys : FromClause → Finset Nat
  | .table b => (b.cols.map Column.foreign_keys).foldr (· ∪ ·) ∅
  | .grouping e => e.foreign_keys
  | .apply l r _ =>
      ((l.columns ++ r.columns).map Column.foreign_keys).foldr (· ∪ ·) ∅

/-- The keyed columns mapping an `Apply` ends up with after
`_populate_column_collection` (keys paired with their columns, in insertion
order). -/
def Apply.column_mapping (l r : FromClause) : List (String × Column) :=
  populate_separate_keys ((l.columns ++ r.columns).map (fun c => (c.key_label, c)))

/-- `is_derived_from`.  The `Apply` case is from the source:
`fromclause is self or self.left.is_derived_from(fromclause) or
self.right.is_derived_from(fromclause)` (short-circuit OR, left first).
Base tables and groupings follow the spec's ancestry contract (modelled from
the spec: true if the candidate is the node itself or derives from it
transitively). -/
def FromClause.is_derived_from : FromClause → FromClause → Bool
  | .table b, x => x == .table b
  | .grouping e, x => (x == .grouping e) || e.is_derived_from x
  | .apply l r o, x =>
      (x == .apply l r o) || l.is_derived_from x || r.is_derived_from x

/-- `self_group(against=None)`.  The `Apply` case is the source:
`return FromGrouping(self)`, ignoring `against`.  Base relations return
themselves and groupings are idempotent (modelled from the spec: grouping an
already-grouped node does not double-wrap). -/
def FromClause.self_group : FromClause → Option Nat → FromClause
  | .table b, _ => .table b
  | .apply l r o, _ => .grouping (.apply l r o)
  | .grouping e, _ => .grouping e

/-- `_from_objects`.  The `Apply` case is the source:
`[self] + self.left._from_objects + self.right._from_objects`.  A base
relation contributes itself; a grouping delegates to its element (modelled
from the spec's from-object flattening contract). -/
def FromClause._from_objects : FromClause → List FromClause
  | .table b => [.table b]
  | .grouping e => e._from_objects
  | .apply l r o => .apply l r o :: (l._from_objects ++ r._from_objects)

/-- One observable step of refresh processing: the base-class
(`FromClause` base class) refresh behavior being invoked on a node for a column. -/
inductive RefreshEvent where
  | base (node : FromClause) (col : Column)
  deriving DecidableEq

/-- `_refresh_for_new_column` as an event trace.  The `Apply` case is the
source, in source order: `super()._refresh_for_new_column(column)` first,
then `self.left._refresh_for_new_column(column)`, then
`self.right._refresh_for_new_column(column)`.  Base tables and groupings run
only the base-class refresh on themselves (collaborator behavior, recorded
as a single event). -/
def FromClause._refresh_for_new_column : FromClause → Column → List RefreshEvent
  | .table b, c => [.base (.table b) c]
  | .grouping e, c => [.base (.grouping e) c]
  | .apply l r o, c =>
      .base (.apply l r o) c
        :: (l._refresh_for_new_column c ++ r._refresh_for_new_column c)

/-- Modelled from the spec: the statement builder's `Select` is not part of
the sources.  It records its inputs verbatim: the raw column arguments, the
WHERE criterion, the explicit `from_obj` list and the remaining kwargs. -/
structure SelectStmt where
  raw_columns : List FromClause
  whereclause : Option String
  from_obj : List FromClause
  kwargs : List (String × String)
  deriving DecidableEq

/-- Modelled from the spec: the `Select` builder expands each from-clause
passed in its columns argument into that relation's own column set. -/
def SelectStmt.selected_columns (s : SelectStmt) : List Column :=
  (s.raw_columns.map FromClause.columns).flatten

/-- `Apply.select(whereclause=None, **kwargs)` from the source:
`collist = [self.left, self.right]`;
`Select(collist, whereclause, from_obj=[self], **kwargs)`.
`l`, `r`, `o` are the fields of the `Apply` node the method runs on. -/
def Apply.select (l r : FromClause) (o : Bool) (whereclause : Option String)
    (kwargs : List (String × String)) : SelectStmt :=
  { raw_columns := [l, r]
    whereclause := whereclause
    from_obj := [FromClause.apply l r o]
    kwargs := kwargs }

/-- Modelled from the spec: `sqlalchemy.sql.base._from_objects` is not part
of the sources; it flattens the `_from_objects` of each given element, in
order. -/
def base_from_objects (elements : List FromClause) : List FromClause :=
  (elements.map FromClause._from_objects).flatten

/-- `Apply._hide_froms` from the source:
`itertools.chain(*[_from_objects(x.left, x.right) for x in self._cloned_set])`.
The clone registry `_cloned_set` is not part of the sources; per the spec it
is an injected collaborator query, passed here as the list of the clones'
`(left, right, isouter)` fields (every clone of an `Apply` is an
`Apply`-shaped node). -/
def Apply._hide_froms (cloned_set : List (FromClause × FromClause × Bool)) : List FromClause :=
  (cloned_set.map (fun x => base_from_objects [x.1, x.2.1])).flatten

/-- A caller-supplied expression handed to the constructor: either a valid
relation expression or something (a scalar) that cannot be interpreted as
one. -/
inductive SqlExpr where
  | rel (r : FromClause)
  | scalar (n : Nat)
  deriving DecidableEq

namespace coercions

/-- Modelled from the spec: the coercion service
(`coercions.expect(roles.FromClauseRole, ...)`) converts a caller-supplied
expression into a relation expression, and fails with a type-conversion
error when the input cannot be interpreted as a relation. -/
def expect : SqlExpr → Except String FromClause
  | .rel r => .ok r
  | .scalar _ => .error "coercion failed: object cannot be interpreted as a FROM clause"

end coercions

/-- Whether an `Except` result is the error case. -/
def is_error : Except String FromClause → Bool
  | .error _ => true
  | .ok _ => false

/-- `Apply.__init__` on already-valid relations:
`self.left = coercions.expect(roles.FromClauseRole, left)`;
`self.right = coercions.expect(roles.FromClauseRole, right).self_group()`. -/
def Apply.init (left right : FromClause) (isouter : Bool) : FromClause :=
  FromClause.apply left (right.self_group none) isouter

/-- `Apply.__init__` including the coercion step, surfacing coercion failure
to the caller: left is coerced first, then right; any failure aborts
construction before an `Apply` value exists. -/
def Apply.init_checked (left right : SqlExpr) (isouter : Bool) : Except String FromClause :=
  match coercions.expect left with
  | .error e => .error e
  | .ok l =>
      match coercions.expect right with
      | .error e => .error e
      | .ok r => .ok (Apply.init l r isouter)

/-- `Apply._create_apply(cls, left, right, isouter=False)`:
`return cls(left, right, isouter)`. -/
def Apply._create_apply (left right : FromClause) (isouter : Bool := false) : FromClause :=
  Apply.init left right isouter

/-- `Apply._create_outerapply(cls, left, right)`:
`return cls(left, right, isouter=True)`. -/
def Apply._create_outerapply (left right : FromClause) : FromClause :=
  Apply.init left right true

namespace ext

/-- `ext.apply = public_factory(Apply._create_apply, ...)`: the module-level
public factory exposes the classmethod as a callable (the `public_factory`
helper is not part of the sources; per the spec the named constructors are
the sanctioned public entry points). -/
def apply (left right : FromClause) (isouter : Bool := false) : FromClause :=
  Apply._create_apply left right isouter

/-- `ext.outerapply = public_factory(Apply._create_outerapply, ...)`. -/
def outerapply (left right : FromClause) : FromClause :=
  Apply._create_outerapply left right

end ext

/-- The `isouter` field of an `Apply` node (`none` on other relations). -/
def FromClause.isouter : FromClause → Option Bool
  | .apply _ _ o => some o
  | _ => none

/-- Concrete columns for witnesses: `a`, two distinct columns sharing key
`b`, and `c`. -/
def colA : Column := ⟨"a", 1, {10}⟩

def colBL : Column := ⟨"b", 2, {11}⟩

def colBR : Column := ⟨"b", 3, {12}⟩

def colC : Column := ⟨"c", 4, ∅⟩

def tLeft : FromClause := .table ⟨1, [colA, colBL]⟩

def tRight : FromClause := .table ⟨2, [colBR, colC]⟩

def tOther : FromClause := .table ⟨3, [colC]⟩

/-- Mapping `Prod.fst` over a key-filtered pair list filters the key list. -/
theorem map_fst_filter_ne (s : String) (l : List (String × Column)) :
    (l.filter (fun q => !(q.1 == s))).map Prod.fst
      = (l.map Prod.fst).filter (fun k => !(k == s)) := by
  induction l with
  | nil => rfl
  | cons q t ih =>
    by_cases h : q.1 == s <;> simp [List.filter_cons, h, ih]

/-- The keys of the populated mapping are the input keys deduplicated to
their first occurrence. -/
theorem psk_keys (ps : List (String × Column)) :
    (populate_separate_keys ps).map Prod.fst = firstDedup (ps.map Prod.fst) := by
  induction ps using populate_separate_keys.induct with
  | case1 => simp [populate_separate_keys, firstDedup]
  | case2 p rest ih =>
    rw [populate_separate_keys, firstDedup.eq_def]
    simp only [List.map_cons]
    rw [ih, map_fst_filter_ne]

/-- The last pair with key `k`, as a `getLastD`, computes `lastVal`. -/
theorem filter_getLastD (k : String) (d : Column) (rest : List (String × Column)) :
    (rest.filter (fun q => q.1 == k)).getLastD (k, d) = (k, lastVal k d rest) := by
  induction rest generalizing d with
  | nil => rfl
  | cons q t ih =>
    rw [lastVal]
    by_cases h : q.1 == k
    · have hk : q.1 = k := by simpa using h
      rw [List.filter_cons_of_pos (by simpa using h), List.getLastD_cons]
      have hq : q = (k, q.2) := by
        cases q with
        | mk a b => simp only at hk; simp [hk]
      rw [hq]
      simpa [h] using ih q.2
    · rw [List.filter_cons_of_neg (by simpa using h)]
      simpa [h] using ih d

/-- Looking a key up in the populated mapping returns the last input pair
carrying that key (last-write-wins). -/
theorem psk_find (k : String) (ps : List (String × Column)) :
    (populate_separate_keys ps).find? (fun p => p.1 == k)
      = (ps.filter (fun p => p.1 == k)).getLast? := by
  induction ps using populate_separate_keys.induct with
  | case1 => simp [populate_separate_keys]
  | case2 p rest ih =>
    rw [populate_separate_keys]
    by_cases h : p.1 == k
    · have hk : p.1 = k := by simpa using h
      rw [List.find?_cons_of_pos _ (by simpa using h),
          List.filter_cons_of_pos (by simpa using h),
          List.getLast?_cons]
      have hgd : (List.filter (fun p => p.1 == k) rest).getLast?.getD p
          = (List.filter (fun p => p.1 == k) rest).getLastD p := by
        rw [List.getLastD_eq_getLast?]
      have hp : p = (k, p.2) := by
        cases p with
        | mk a b => simp only at hk; simp [hk]
      rw [hgd, hp, filter_getLastD]
    · rw [List.find?_cons_of_neg _ (by simpa using h),
          List.filter_cons_of_neg (by simpa using h), ih]
      congr 1
      rw [List.filter_filter]
      apply List.filter_congr
      intro x _
      by_cases hx : x.1 == k
      · have hxk : x.1 = k := by simpa using hx
        have hpk : ¬ p.1 = k := by simpa using h
        have hxp : ¬ (x.1 == p.1) = true := by
          simp only [beq_iff_eq, hxk]
          intro hh
          exact hpk hh.symm
        simp [hx, hxp]
      · simp [hx]

/-- Membership in a folded union of finsets. -/
theorem mem_foldr_union (n : Nat) (l : List (Finset Nat)) :
    (n ∈ l.foldr (· ∪ ·) (∅ : Finset Nat)) ↔ ∃ s ∈ l, n ∈ s := by
  induction l with
  | nil => simp
  | cons s t ih => simp [ih]

/-- Every relation derives from itself. -/
theorem is_derived_from_self (x : FromClause) :
    x.is_derived_from x = true := by
  cases x <;> simp [FromClause.is_derived_from]

/-- C1: after column population, the `Apply`'s columns mapping equals the
columns of `left` followed by the columns of `right`, each keyed by its
disambiguated label key, deduplicated by key with last-write-wins on
collision (for left columns `[a, b]` and right columns `[b, c]` sharing key
`b`, the keyed order is `[a, b(=right.b), c]`), and the `Apply`'s
`foreign_keys` is the set union of the foreign keys of every consumed
column. -/
theorem C1_apply_columns_and_foreign_keys (l r : FromClause) (o : Bool) :
    (FromClause.apply l r o).columns = (Apply.column_mapping l r).map Prod.snd
  ∧ Apply.column_mapping l r
      = populate_separate_keys
          ((l.columns ++ r.columns).map (fun c => (c.key_label, c)))
  ∧ (Apply.column_mapping l r).map Prod.fst
      = firstDedup ((l.columns ++ r.columns).map Column.key_label)
  ∧ (∀ k, (Apply.column_mapping l r).find? (fun p => p.1 == k)
        = (((l.columns ++ r.columns).map (fun c => (c.key_label, c))).filter
            (fun p => p.1 == k)).getLast?)
  ∧ (∀ n, n ∈ (FromClause.apply l r o).foreign_keys
        ↔ ∃ c ∈ l.columns ++ r.columns, n ∈ c.foreign_keys)
  ∧ Apply.column_mapping tLeft tRight = [("a", colA), ("b", colBR), ("c", colC)] := by
  refine ⟨rfl, rfl, ?_, ?_, ?_, ?_⟩
  · rw [Apply.column_mapping, psk_keys, List.map_map]
    rfl
  · intro k
    exact psk_find k _
  · intro n
    rw [show (FromClause.apply l r o).foreign_keys
          = ((l.columns ++ r.columns).map Column.foreign_keys).foldr (· ∪ ·) ∅ from rfl,
        mem_foldr_union]
    constructor
    · rintro ⟨s, hs, hn⟩
      obtain ⟨c, hc, rfl⟩ := List.mem_map.mp hs
      exact ⟨c, hc, hn⟩
    · rintro ⟨c, hc, hn⟩
      exact ⟨c.foreign_keys, List.mem_map_of_mem _ hc, hn⟩
  · simp [Apply.column_mapping, tLeft, tRight, FromClause.columns,
      colA, colBL, colBR, colC, populate_separate_keys, lastVal]

/-- C2: for every constructed `Apply`, at any tree depth, its `_from_objects`
sequence is exactly the `Apply` instance itself, followed by `left`'s
from-objects, followed by `right`'s from-objects, in that order. -/
theorem C2_from_objects (l r : FromClause) (o : Bool) :
    (FromClause.apply l r o)._from_objects
      = FromClause.apply l r o :: (l._from_objects ++ r._from_objects) := rfl

/-- C3: `is_derived_from x` returns true iff `x` is the `Apply` itself, or
`left.is_derived_from x`, or `right.is_derived_from x` (a short-circuit OR
with left first); in particular it is true when `x` is `left`, `x` is
`right`, or `x` derives from either transitively, and false for any
unrelated relation. -/
theorem C3_is_derived_from (l r : FromClause) (o : Bool) (x : FromClause) :
    ((FromClause.apply l r o).is_derived_from x
        = ((x == FromClause.apply l r o)
            || l.is_derived_from x || r.is_derived_from x))
  ∧ ((FromClause.apply l r o).is_derived_from x = true
        ↔ (x = FromClause.apply l r o
            ∨ l.is_derived_from x = true ∨ r.is_derived_from x = true))
  ∧ (FromClause.apply l r o).is_derived_from l = true
  ∧ (FromClause.apply l r o).is_derived_from r = true
  ∧ (FromClause.apply l r o).is_derived_from (FromClause.apply l r o) = true := by
  refine ⟨rfl, ?_, ?_, ?_, ?_⟩
  · simp [FromClause.is_derived_from, Bool.or_eq_true, or_assoc]
  · simp [FromClause.is_derived_from, is_derived_from_self]
  · simp [FromClause.is_derived_from, is_derived_from_self]
  · simp [FromClause.is_derived_from]

/-- C4 (counterexample): for concrete relations, `_refresh_for_new_column`
does not propagate to `left` and `right` before re-invoking the base refresh
for the `Apply` node: the source runs the base refresh first. -/
theorem C4_refresh_order_counterexample :
    ¬ ((FromClause.apply tLeft tRight false)._refresh_for_new_column colA
        = tLeft._refresh_for_new_column colA
            ++ tRight._refresh_for_new_column colA
            ++ [RefreshEvent.base (FromClause.apply tLeft tRight false) colA]) := by
  decide

/-- C4 (amended): `_refresh_for_new_column` first re-invokes the base refresh
behavior for the `Apply` node itself, and only then propagates the
notification to `left` and then to `right`. -/
theorem C4_refresh_order_amended (l r : FromClause) (o : Bool) (c : Column) :
    (FromClause.apply l r o)._refresh_for_new_column c
      = RefreshEvent.base (FromClause.apply l r o) c
          :: (l._refresh_for_new_column c ++ r._refresh_for_new_column c) := rfl

/-- C5: for every `against` hint (including none), `self_group` returns a
from-grouping wrapper whose wrapped element is the `Apply` itself; it never
returns the `Apply` unwrapped, and the result does not depend on
`against`. -/
theorem C5_self_group (l r : FromClause) (o : Bool) (against : Option Nat) :
    (FromClause.apply l r o).self_group against
        = FromClause.grouping (FromClause.apply l r o)
  ∧ (∀ against2, (FromClause.apply l r o).self_group against
        = (FromClause.apply l r o).self_group against2)
  ∧ (FromClause.apply l r o).self_group against ≠ FromClause.apply l r o := by
  refine ⟨rfl, fun _ => rfl, by simp [FromClause.self_group]⟩

/-- C6: `select(where, kwargs)` builds a select statement whose declared
FROM source is exactly the one `Apply` instance, whose selected columns are
exactly `left`'s columns concatenated with `right`'s columns (pre-merge,
un-deduplicated: the expansion of the two inputs `[left, right]`), whose
filter criterion is the given where clause, and whose remaining kwargs are
passed through verbatim. -/
theorem C6_select (l r : FromClause) (o : Bool) (w : Option String)
    (kw : List (String × String)) :
    (Apply.select l r o w kw).from_obj = [FromClause.apply l r o]
  ∧ (Apply.select l r o w kw).raw_columns = [l, r]
  ∧ (Apply.select l r o w kw).selected_columns = l.columns ++ r.columns
  ∧ (Apply.select l r o w kw).whereclause = w
  ∧ (Apply.select l r o w kw).kwargs = kw := by
  refine ⟨rfl, rfl, ?_, rfl, rfl⟩
  simp [Apply.select, SelectStmt.selected_columns]

/-- C7: `_hide_froms` yields, for every structurally-equivalent clone of the
node in its clone set (including the node itself), the flattened
from-objects contributed by that clone's `left` and `right`. -/
theorem C7_hide_froms (cloned_set : List (FromClause × FromClause × Bool))
    (l r : FromClause) (o : Bool) (hself : (l, r, o) ∈ cloned_set) :
    Apply._hide_froms cloned_set
        = (cloned_set.map
            (fun x => x.1._from_objects ++ x.2.1._from_objects)).flatten
  ∧ (∀ y, y ∈ Apply._hide_froms cloned_set
        ↔ ∃ x ∈ cloned_set,
            y ∈ x.1._from_objects ∨ y ∈ x.2.1._from_objects)
  ∧ (∀ y, y ∈ l._from_objects ++ r._from_objects
        → y ∈ Apply._hide_froms cloned_set) := by
  have hdef : Apply._hide_froms cloned_set
      = (cloned_set.map
          (fun x => x.1._from_objects ++ x.2.1._from_objects)).flatten := by
    simp [Apply._hide_froms, base_from_objects]
  have hmem : ∀ y, y ∈ Apply._hide_froms cloned_set
      ↔ ∃ x ∈ cloned_set, y ∈ x.1._from_objects ∨ y ∈ x.2.1._from_objects := by
    intro y
    rw [hdef]
    simp only [List.mem_flatten, List.mem_map]
    constructor
    · rintro ⟨ys, ⟨x, hx, rfl⟩, hy⟩
      exact ⟨x, hx, by simpa using hy⟩
    · rintro ⟨x, hx, hy⟩
      exact ⟨x.1._from_objects ++ x.2.1._from_objects, ⟨x, hx, rfl⟩, by simpa using hy⟩
  refine ⟨hdef, hmem, ?_⟩
  intro y hy
  exact (hmem y).mpr ⟨(l, r, o), hself, by simpa using hy⟩

/-- C7 (witness): with a concrete two-element clone set containing the node
itself, the node's own left contribution appears among the hidden froms. -/
theorem C7_hide_froms_witness :
    tLeft ∈ Apply._hide_froms [(tLeft, tRight, false), (tOther, tOther, true)] :=
  (C7_hide_froms [(tLeft, tRight, false), (tOther, tOther, true)]
      tLeft tRight false (by decide)).2.2 tLeft (by decide)

/-- C8: the inner factory produces an `Apply` with `isouter = false`, and the
outer factory produces an `Apply` with `isouter = true`, both through the
classmethods and through the public module-level factories. -/
theorem C8_factory_isouter (l r : FromClause) :
    (Apply._create_apply l r).isouter = some false
  ∧ (Apply._create_outerapply l r).isouter = some true
  ∧ (ext.apply l r).isouter = some false
  ∧ (ext.outerapply l r).isouter = some true := ⟨rfl, rfl, rfl, rfl⟩

/-- C9: construction fails with a type-conversion error exactly when `left`
or `right` cannot be coerced into a relation expression; on success the
result is the fully-built `Apply` over the two coerced relations (with
`right` self-grouped), and failure produces no `Apply` value at all
(atomic: no partially-constructed state escapes). -/
theorem C9_init_coercion (left right : SqlExpr) (o : Bool) :
    (is_error (Apply.init_checked left right o)
        = (is_error (coercions.expect left) || is_error (coercions.expect right)))
  ∧ (∀ a, Apply.init_checked left right o = .ok a
        → ∃ l0 r0, coercions.expect left = .ok l0
            ∧ coercions.expect right = .ok r0
            ∧ a = FromClause.apply l0 (r0.self_group none) o)
  ∧ (∀ e, Apply.init_checked left right o = .error e
        → is_error (coercions.expect left) = true
          ∨ is_error (coercions.expect right) = true) := by
  cases left <;> cases right <;>
    simp [Apply.init_checked, coercions.expect, is_error, Apply.init]

/-- C9 (witness): constructing from two concrete valid relations succeeds
and yields the `Apply` over the coerced relations. -/
theorem C9_init_coercion_witness :
    ∃ l0 r0, coercions.expect (SqlExpr.rel tLeft) = .ok l0
      ∧ coercions.expect (SqlExpr.rel tRight) = .ok r0
      ∧ FromClause.apply tLeft (tRight.self_group none) false
          = FromClause.apply l0 (r0.self_group none) false :=
  (C9_init_coercion (SqlExpr.rel tLeft) (SqlExpr.rel tRight) false).2.1
    (FromClause.apply tLeft (tRight.self_group none) false) rfl

/-- C10: the public `apply` factory accepts an optional third argument
`isouter`; calling it with `isouter = true` produces an `Apply` with
`isouter = true`, so the inner entry point is not restricted to producing
inner applies (omitting the argument defaults to `false`). -/
theorem C10_apply_isouter_argument (l r : FromClause) :
    (Apply._create_apply l r true).isouter = some true
  ∧ (ext.apply l r true).isouter = some true
  ∧ ext.apply l r = Apply._create_apply l r false := ⟨rfl, rfl, rfl⟩
